import Mathlib

/-!
# webanalyse: link classification and page-structure queries

A shallow embedding of `analyse_handler.go`.

Go strings are byte strings.  They are embedded as Lean `String`s, one `Char`
per byte; every string literal used below is plain ASCII, where the two
readings coincide.

The counters of `LinkInfo` are Go `int`s that start at zero and grow by one per
anchor element at most, so they are embedded as `Nat` (no wrap-around is
reachable on a document that fits in memory).

Collaborators that live outside the repository are embedded as follows:

* `net/url.Parse` is a parameter `parse` of the scan; `Url.Parse` below is a
  model of the standard library function, restricted to the two fields the
  program reads (`Scheme`, `Host`), used wherever a concrete parser is needed:
  the theorems over all hrefs rest on its scheme split (`getScheme`) only, the
  others evaluate it on the plain hrefs of their statements;
* the worker pool is a parameter `WaitForJob`: given the arguments of the jobs
  submitted with `Add`, in submission order, it gives the jobs handed back by
  the successive `WaitForJob` calls until `nil`;
* the network is a parameter `makeRequest` of `accessible`;
* the parsed document is a tree of `html.Node`s, queried with the two goquery
  operations the program uses (`Find` with a tag selector, `Text`).
-/

set_option autoImplicit false

namespace Webanalyse

/-! ## Strings -/

/-- Go `strings.HasPrefix`. -/
def HasPrefix (s p : String) : Bool := p.data.isPrefixOf s.data

/-! ## `net/url` -/

/-- The two fields of a Go `url.URL` that the program reads. -/
structure URL where
  Scheme : String
  Host : String
deriving DecidableEq, Repr

namespace Url

def isAlpha (c : Char) : Bool := ('a' ≤ c && c ≤ 'z') || ('A' ≤ c && c ≤ 'Z')

def isDigit (c : Char) : Bool := '0' ≤ c && c ≤ '9'

def ishex (c : Char) : Bool :=
  isDigit c || ('a' ≤ c && c ≤ 'f') || ('A' ≤ c && c ≤ 'F')

def unhex (c : Char) : Nat :=
  if isDigit c then c.toNat - '0'.toNat
  else if 'a' ≤ c && c ≤ 'f' then c.toNat - 'a'.toNat + 10
  else if 'A' ≤ c && c ≤ 'F' then c.toNat - 'A'.toNat + 10
  else 0

/-- ASCII lower-casing, as `strings.ToLower` acts on a scheme. -/
def toLower (c : Char) : Char :=
  if 'A' ≤ c && c ≤ 'Z' then Char.ofNat (c.toNat + 32) else c

/-- Go `stringContainsCTLByte`. -/
def stringContainsCTLByte (s : List Char) : Bool :=
  s.any fun c => c.toNat < 0x20 || c.toNat == 0x7f

/-- Go `strings.Cut` on a one-byte separator: the text before the first
separator, the text after it, and whether it was found. -/
def cut (sep : Char) : List Char → List Char × List Char × Bool
  | [] => ([], [], false)
  | c :: cs =>
    if c = sep then ([], cs, true)
    else
      let r := cut sep cs
      (c :: r.1, r.2.1, r.2.2)

/-- The loop of Go `getScheme`; `acc` holds the bytes already read, so that
`i == 0` in the source is `acc = []` here. -/
def getSchemeLoop (rawURL : List Char) : List Char → List Char → Option (List Char × List Char)
  | _, [] => some ([], rawURL)
  | acc, c :: cs =>
    if isAlpha c then getSchemeLoop rawURL (acc ++ [c]) cs
    else if isDigit c || c = '+' || c = '-' || c = '.' then
      if acc.isEmpty then some ([], rawURL) else getSchemeLoop rawURL (acc ++ [c]) cs
    else if c = ':' then
      if acc.isEmpty then none else some (acc, cs)
    else some ([], rawURL)

/-- Go `getScheme`: `none` is the error `missing protocol scheme`. -/
def getScheme (rawURL : List Char) : Option (List Char × List Char) :=
  getSchemeLoop rawURL [] rawURL

/-- Go `strings.LastIndexByte`. -/
def lastIndex (c : Char) : List Char → Option Nat
  | [] => none
  | x :: xs =>
    match lastIndex c xs with
    | some i => some (i + 1)
    | none => if x = c then some 0 else none

/-- Go `strings.Index`: the position of the first occurrence of `sub`. -/
def index (sub : List Char) : List Char → Option Nat
  | [] => if sub.isEmpty then some 0 else none
  | c :: cs =>
    if sub.isPrefixOf (c :: cs) then some 0
    else (index sub cs).map (· + 1)

/-- The modes of Go `unescape` that `Parse` reaches. -/
inductive encoding where
  | encodePath
  | encodeHost
  | encodeZone
  | encodeUserPassword
  | encodeFragment
deriving DecidableEq, Repr

/-- Go `shouldEscape c encodeHost` (the answer is the same for `encodeZone`):
letters, digits, the sub-delimiters, `:`, `[`, `]`, `<`, `>`, the double quote
and the unreserved marks may appear in a host as they are. -/
def shouldEscapeHost (c : Char) : Bool :=
  !(isAlpha c || isDigit c
    || "!$&()*+,;=:[]<>".data.contains c
    || c = Char.ofNat 39 || c = Char.ofNat 34
    || "-_.~".data.contains c)

/-- Go `unescape`: percent-decoding, with the checks of the mode.  `none` is an
`EscapeError` or an `InvalidHostError`. -/
def unescape (mode : encoding) : List Char → Option (List Char)
  | [] => some []
  | c :: rest =>
    if c = '%' then
      match rest with
      | a :: b :: rest2 =>
        if !ishex a || !ishex b then none
        else if mode = .encodeHost && unhex a < 8 && !(a = '2' && b = '5') then none
        else if mode = .encodeZone && !(a = '2' && b = '5')
            && Char.ofNat (unhex a * 16 + unhex b) ≠ ' '
            && shouldEscapeHost (Char.ofNat (unhex a * 16 + unhex b)) then none
        else (unescape mode rest2).map (Char.ofNat (unhex a * 16 + unhex b) :: ·)
      | _ => none
    else if (mode = .encodeHost || mode = .encodeZone) && c.toNat < 0x80
        && c ≠ '+' && shouldEscapeHost c then none
    else (unescape mode rest).map (c :: ·)

/-- Go `validOptionalPort`. -/
def validOptionalPort : List Char → Bool
  | [] => true
  | c :: digits => c = ':' && digits.all isDigit

/-- Go `validUserinfo`. -/
def validUserinfo (s : List Char) : Bool :=
  s.all fun r => isAlpha r || isDigit r
    || "-._:~!$&()*+,;=%@".data.contains r || r = Char.ofNat 39

/-- Go `parseHost`, as it stood before the standard library began to check
that the text between `[` and `]` is an IP address: a bracket inside a host is
let through here. -/
def parseHost (host : List Char) : Option (List Char) :=
  if host.head? = some '[' then
    match lastIndex ']' host with
    | none => none
    | some i =>
      if !validOptionalPort (host.drop (i + 1)) then none
      else
        match index "%25".data (host.take i) with
        | some zone =>
          match unescape .encodeHost (host.take zone),
              unescape .encodeZone ((host.take i).drop zone),
              unescape .encodeHost (host.drop i) with
          | some host1, some host2, some host3 => some (host1 ++ host2 ++ host3)
          | _, _, _ => none
        | none => unescape .encodeHost host
  else
    match lastIndex ':' host with
    | some i =>
      if !validOptionalPort (host.drop i) then none else unescape .encodeHost host
    | none => unescape .encodeHost host

/-- Go `parseAuthority`, keeping the host only. -/
def parseAuthority (authority : List Char) : Option (List Char) :=
  match lastIndex '@' authority with
  | none => parseHost authority
  | some i =>
    match parseHost (authority.drop (i + 1)) with
    | none => none
    | some host =>
      let userinfo := authority.take i
      if !validUserinfo userinfo then none
      else if !userinfo.contains ':' then
        (unescape .encodeUserPassword userinfo).map fun _ => host
      else
        let r := cut ':' userinfo
        match unescape .encodeUserPassword r.1, unescape .encodeUserPassword r.2.1 with
        | some _, some _ => some host
        | _, _ => none

/-- The query handling of the unexported Go `parse`: what stays of the text
after the scheme once the query is cut off. -/
def withoutQuery (afterScheme : List Char) : List Char :=
  if afterScheme.getLast? = some '?' && afterScheme.count '?' = 1 then afterScheme.dropLast
  else (cut '?' afterScheme).1

/-- The unexported Go `parse rawURL false` from the point where the scheme and
the query have been split off. -/
def parseRest (Scheme : String) (rest : List Char) : Option URL :=
  if rest.head? ≠ some '/' && Scheme ≠ "" then
    -- a rootless path after a scheme is opaque
    some ⟨Scheme, ""⟩
  else if rest.head? ≠ some '/' && (cut '/' rest).1.contains ':' then
    -- first path segment in URL cannot contain colon
    none
  else if (Scheme ≠ "" || !"///".data.isPrefixOf rest) && "//".data.isPrefixOf rest then
    match parseAuthority (cut '/' (rest.drop 2)).1,
        unescape .encodePath
          (if (cut '/' (rest.drop 2)).2.2 then '/' :: (cut '/' (rest.drop 2)).2.1 else []) with
    | some host, some _ => some ⟨Scheme, ⟨host⟩⟩
    | _, _ => none
  else
    (unescape .encodePath rest).map fun _ => ⟨Scheme, ""⟩

/-- The unexported Go `parse rawURL false`, on a string without fragment. -/
def parseNoFragment (rawURL : List Char) : Option URL :=
  if stringContainsCTLByte rawURL then none
  else if rawURL = ['*'] then some ⟨"", ""⟩
  else
    match getScheme rawURL with
    | none => none
    | some (scheme, afterScheme) =>
      parseRest ⟨scheme.map toLower⟩ (withoutQuery afterScheme)

end Url

/-- Go `url.Parse`, keeping `Scheme` and `Host`; `none` is a non-nil error. -/
def Url.Parse (rawURL : String) : Option URL :=
  let r := Url.cut '#' rawURL.data
  match Url.parseNoFragment r.1 with
  | none => none
  | some u =>
    if r.2.1.isEmpty then some u
    else (Url.unescape .encodeFragment r.2.1).map fun _ => u

/-! ## `html.Node` and goquery -/

/-- Go `html.NodeType`. -/
inductive NodeType where
  | ErrorNode
  | TextNode
  | DocumentNode
  | ElementNode
  | CommentNode
  | DoctypeNode
deriving DecidableEq, Repr

/-- Go `html.Attribute` (without its namespace). -/
structure Attribute where
  Key : String
  Val : String
deriving DecidableEq, Repr

/-- Go `html.Node`: the children stand for the `FirstChild`/`NextSibling`
chain. -/
inductive Node where
  | mk (type : NodeType) (Data : String) (Attr : List Attribute) (children : List Node)

namespace Node

def type : Node → NodeType
  | mk t _ _ _ => t

def Data : Node → String
  | mk _ d _ _ => d

def Attr : Node → List Attribute
  | mk _ _ a _ => a

def children : Node → List Node
  | mk _ _ _ cs => cs

mutual
/-- The cascadia `MatchAll` of a tag selector: the node itself when it is an
element of that name, then the matches below it, in document order. -/
def matchAll (tag : String) : Node → List Node
  | mk t d a cs =>
    (if t = .ElementNode ∧ d = tag then [mk t d a cs] else []) ++ matchAllList tag cs
/-- The `MatchAll` of the nodes of a sibling chain, one after the other. -/
def matchAllList (tag : String) : List Node → List Node
  | [] => []
  | c :: cs => matchAll tag c ++ matchAllList tag cs
end

mutual
/-- The recursive closure of goquery `Text`: the data of every text node of
the subtree, in document order. -/
def text : Node → String
  | mk t d _ cs => (if t = .TextNode then d else "") ++ textList cs
/-- The text of the nodes of a sibling chain, one after the other. -/
def textList : List Node → String
  | [] => ""
  | c :: cs => text c ++ textList cs
end

end Node

/-- The goquery `Selection`: its matched nodes. -/
abbrev Selection := List Node

/-- The goquery `Find` with a tag selector, on a selection of one node (the
document): the matches among the element children of the node and below. -/
def Find (doc : Node) (tag : String) : Selection :=
  Node.matchAllList tag (doc.children.filter fun c => c.type = .ElementNode)

/-- The goquery `Selection.Text`: the combined text contents of each element in
the set of matched elements, including their descendants. -/
def Selection.Text (s : Selection) : String := Node.textList s

/-- The goquery `Attr` on one element: the value of the first attribute of that
name, and whether there is one. -/
def Node.attr (n : Node) (attrName : String) : Option String :=
  (n.Attr.find? fun a => a.Key = attrName).map Attribute.Val

/-! ## `analyse_handler.go` -/

/-- LinkInfo encapsulates the count of all the different links in the page. -/
structure LinkInfo where
  internal : Nat
  external : Nat
  inaccesible : Nat
deriving DecidableEq, Repr

/-- The analyser holds a document which needs to be analyzed. -/
structure analyser where
  url : String
  doc : Node

/-- The Go method `title`. -/
def analyser.title (an : analyser) : String :=
  (Find an.doc "title").Text

/-- The part of a Go `http.Response` that `accessible` reads. -/
structure Response where
  StatusCode : Int
deriving DecidableEq, Repr

/-- The result pair of the Go `makeRequest`: a response pointer, `none` when
nil, and an error, `none` when nil. -/
structure RequestResult where
  resp : Option Response
  err : Option String
deriving DecidableEq, Repr

/-- Ten seconds, as a Go `time.Duration` (nanoseconds). -/
def headTimeout : Nat := 10 * 1000000000

/-- The Go function `accessible`, on its one string argument.  The result is a
Go `interface{}` that holds nil (`none`) or a boolean. -/
def accessible (makeRequest : String → String → Nat → RequestResult) (url : String) :
    Option Bool :=
  let r := makeRequest "HEAD" url headTimeout
  match r.err with
  | some _ => some false
  | none =>
    match r.resp with
    | some resp => if resp.StatusCode ≥ 400 then some false else some true
    | none => some true

/-- A pool job as `linkInfo` sees it: the argument it was added with and its
`Result`, nil (`none`) or the boolean that `accessible` returned. -/
structure Job where
  Args : String
  Result : Option Bool
deriving DecidableEq, Repr

/-- The variables that the anchor scan of `linkInfo` updates, with the
arguments of the jobs added to the pool so far, in submission order. -/
structure ScanState where
  seenUrls : List String
  internalLinks : Nat
  externalLinks : Nat
  added : List String
deriving DecidableEq, Repr

/-- The closure that `linkInfo` runs on each anchor element; `attr` is the
result of `s.Attr "href"`, `none` when the attribute does not exist. -/
def linkInfo.each (parse : String → Option URL) (host : String) (st : ScanState)
    (attr : Option String) : ScanState :=
  match attr with
  | none => st
  | some href =>
    if href ∈ st.seenUrls then st
    else
      let st := { st with seenUrls := href :: st.seenUrls }
      match parse href with
      | some u =>
        if u.Scheme = "" ∨ u.Host = "" then
          if !HasPrefix href "mailto:" then
            { st with internalLinks := st.internalLinks + 1 }
          else st
        else if u.Scheme = "http" ∨ u.Scheme = "https" then
          if host = u.Host then
            { st with internalLinks := st.internalLinks + 1 }
          else
            { st with externalLinks := st.externalLinks + 1, added := st.added ++ [href] }
        else st
      | none => st

/-- The host that `linkInfo` compares with: the host of the page URL, or the
empty string when the page URL does not parse. -/
def linkInfo.host (parse : String → Option URL) (url : String) : String :=
  match parse url with
  | some u => u.Host
  | none => ""

/-- The anchor scan of `linkInfo`, over the `href` attributes of the anchors in
document order. -/
def linkInfo.scan (parse : String → Option URL) (url : String)
    (anchors : List (Option String)) : ScanState :=
  anchors.foldl (linkInfo.each parse (linkInfo.host parse url)) ⟨[], 0, 0, []⟩

/-- The loop of `linkInfo` over the jobs that `WaitForJob` hands back. -/
def linkInfo.drain : List Job → Nat → Nat
  | [], inaccesibleLinks => inaccesibleLinks
  | job :: jobs, inaccesibleLinks =>
    match job.Result with
    | none => linkInfo.drain jobs inaccesibleLinks
    | some b =>
      if !b then linkInfo.drain jobs (inaccesibleLinks + 1)
      else linkInfo.drain jobs inaccesibleLinks

/-- The body of `linkInfo` on the sequence of anchors that `Find "a"` gives. -/
def linkInfoOfAnchors (parse : String → Option URL) (WaitForJob : List String → List Job)
    (url : String) (anchors : List (Option String)) : LinkInfo :=
  let st := linkInfo.scan parse url anchors
  ⟨st.internalLinks, st.externalLinks, linkInfo.drain (WaitForJob st.added) 0⟩

/-- The Go method `linkInfo`. -/
def analyser.linkInfo (parse : String → Option URL) (WaitForJob : List String → List Job)
    (an : analyser) : LinkInfo :=
  linkInfoOfAnchors parse WaitForJob an.url ((Find an.doc "a").map fun n => n.attr "href")

/-- A pool that runs `accessible` on every added job and hands the jobs back
in submission order. -/
def runAll (makeRequest : String → String → Nat → RequestResult) (added : List String) :
    List Job :=
  added.map fun href => ⟨href, accessible makeRequest href⟩

/-- The three classes of a hyperlink reference. -/
inductive LinkClass where
  | Internal
  | External
  | Ignored
deriving DecidableEq, Repr

/-- The branch of the closure of `linkInfo` that an unseen href takes, read off
the code: `Internal` where the closure increments `internalLinks`, `External`
where it increments `externalLinks` and adds a job, `Ignored` where it changes
no counter.  This is what the code does, not what the specification asks for:
see `specClassify`. -/
def classify (parse : String → Option URL) (host : String) (href : String) : LinkClass :=
  match parse href with
  | some u =>
    if u.Scheme = "" ∨ u.Host = "" then
      if !HasPrefix href "mailto:" then .Internal else .Ignored
    else if u.Scheme = "http" ∨ u.Scheme = "https" then
      if host = u.Host then .Internal else .External
    else .Ignored
  | none => .Ignored

/-- The classes of the specification (its section 4.1, which is also what the
doc comment of `linkInfo` says), in the words of the specification: a reference
that fails to parse is `Ignored`; one with the prefix `mailto:` is `Ignored`;
one with empty scheme and empty host is `Internal`; one with scheme exactly
`http` or `https` is `Internal` when its host is the page host and `External`
otherwise; any other reference is `Ignored`. -/
def specClassify (parse : String → Option URL) (host : String) (href : String) : LinkClass :=
  match parse href with
  | none => .Ignored
  | some u =>
    if HasPrefix href "mailto:" then .Ignored
    else if u.Scheme = "" ∧ u.Host = "" then .Internal
    else if u.Scheme = "http" ∨ u.Scheme = "https" then
      if host = u.Host then .Internal else .External
    else .Ignored

/-! ## Concrete documents, networks and pools -/

/-- A network on which the HEAD request to `http://other.com/x` fails and every
other request is answered with status 200. -/
def otherDown (_method url : String) (_timeout : Nat) : RequestResult :=
  if url = "http://other.com/x" then ⟨none, some "dial tcp: connection refused"⟩
  else ⟨some ⟨200⟩, none⟩

/-- A pool whose tasks all fail at the pool level: every job comes back with a
nil `Result`. -/
def allFailed (added : List String) : List Job :=
  added.map fun href => ⟨href, none⟩

/-- A pool that hands back the first added job only, with a false result. -/
def firstJobFalse (added : List String) : List Job :=
  (added.take 1).map fun href => ⟨href, some false⟩

/-- Two anchors to two hosts other than `example.com`. -/
def twoExternalAnchors : List (Option String) :=
  [some "http://other.com/x", some "http://third.org/"]

/-- An element node with the given tag, attributes and children. -/
def element (tag : String) (attrs : List Attribute) (children : List Node) : Node :=
  .mk .ElementNode tag attrs children

/-- An anchor element with the given `href`. -/
def anchor (href : String) : Node :=
  element "a" [⟨"href", href⟩] []

/-- An anchor element whose `href` attribute is as given: absent for `none`. -/
def anchorOf (attr : Option String) : Node :=
  element "a" (match attr with
    | some href => [⟨"href", href⟩]
    | none => []) []

/-- A page whose body holds one anchor for each entry of the list, in order. -/
def docOfAnchors (anchors : List (Option String)) : Node :=
  .mk .DocumentNode "" []
    [element "html" [] [element "head" [] [], element "body" [] (anchors.map anchorOf)]]

/-- The page of the scenario: five anchors, the last one a repetition of the
first. -/
def scenarioDoc : Node :=
  .mk .DocumentNode "" []
    [element "html" []
      [element "head" [] [],
       element "body" []
        [anchor "/about",
         anchor "http://example.com/contact",
         anchor "http://other.com/x",
         anchor "mailto:a@b.com",
         anchor "/about"]]]

/-- A page with a `title` in its head and a second `title` inside an inline
SVG. -/
def twoTitlesDoc : Node :=
  .mk .DocumentNode "" []
    [element "html" []
      [element "head" [] [element "title" [] [.mk .TextNode "Home" [] []]],
       element "body" []
        [element "svg" [] [element "title" [] [.mk .TextNode "Logo" [] []]]]]]

/-! ## The anchor scan -/

theorem each_none (parse : String → Option URL) (host : String) (st : ScanState) :
    linkInfo.each parse host st none = st := rfl

theorem each_seen (parse : String → Option URL) (host : String) (st : ScanState)
    (href : String) (h : href ∈ st.seenUrls) :
    linkInfo.each parse host st (some href) = st := by
  simp [linkInfo.each, h]

/-- On an unseen href the closure marks it seen and acts as `classify` says. -/
theorem each_unseen (parse : String → Option URL) (host : String) (st : ScanState)
    (href : String) (h : href ∉ st.seenUrls) :
    linkInfo.each parse host st (some href) =
      match classify parse host href with
      | .Internal =>
        { st with seenUrls := href :: st.seenUrls, internalLinks := st.internalLinks + 1 }
      | .External =>
        { st with seenUrls := href :: st.seenUrls, externalLinks := st.externalLinks + 1,
                  added := st.added ++ [href] }
      | .Ignored => { st with seenUrls := href :: st.seenUrls } := by
  simp only [linkInfo.each, classify, if_neg h]
  cases parse href with
  | none => rfl
  | some u =>
    dsimp only
    by_cases h1 : u.Scheme = "" ∨ u.Host = ""
    · rw [if_pos h1, if_pos h1]
      by_cases h2 : (!HasPrefix href "mailto:") = true
      · rw [if_pos h2, if_pos h2]
      · rw [if_neg h2, if_neg h2]
    · rw [if_neg h1, if_neg h1]
      by_cases h3 : u.Scheme = "http" ∨ u.Scheme = "https"
      · rw [if_pos h3, if_pos h3]
        by_cases h4 : host = u.Host
        · rw [if_pos h4, if_pos h4]
        · rw [if_neg h4, if_neg h4]
      · rw [if_neg h3, if_neg h3]

theorem each_seenUrls (parse : String → Option URL) (host : String) (st : ScanState)
    (href : String) (h : href ∉ st.seenUrls) :
    (linkInfo.each parse host st (some href)).seenUrls = href :: st.seenUrls := by
  rw [each_unseen parse host st href h]
  cases classify parse host href <;> rfl

theorem mem_each_seenUrls (parse : String → Option URL) (host : String) (st : ScanState)
    (attr : Option String) (x : String) :
    x ∈ (linkInfo.each parse host st attr).seenUrls ↔ x ∈ st.seenUrls ∨ attr = some x := by
  cases attr with
  | none => simp [each_none]
  | some href =>
    by_cases h : href ∈ st.seenUrls
    · rw [each_seen parse host st href h]
      constructor
      · exact Or.inl
      · rintro (hx | hx)
        · exact hx
        · cases hx; exact h
    · rw [each_seenUrls parse host st href h]
      simp only [List.mem_cons, Option.some.injEq]
      constructor
      · rintro (hx | hx)
        · exact Or.inr hx.symm
        · exact Or.inl hx
      · rintro (hx | hx)
        · exact Or.inr hx
        · exact Or.inl hx.symm

theorem mem_foldl_seenUrls (parse : String → Option URL) (host : String)
    (anchors : List (Option String)) (st : ScanState) (x : String) :
    x ∈ (anchors.foldl (linkInfo.each parse host) st).seenUrls ↔
      x ∈ st.seenUrls ∨ some x ∈ anchors := by
  induction anchors generalizing st with
  | nil => simp
  | cons a rest ih =>
    rw [List.foldl_cons, ih, mem_each_seenUrls, List.mem_cons, or_assoc]
    constructor
    · rintro (hx | hx | hx)
      · exact Or.inl hx
      · exact Or.inr (Or.inl hx.symm)
      · exact Or.inr (Or.inr hx)
    · rintro (hx | hx | hx)
      · exact Or.inl hx
      · exact Or.inr (Or.inl hx.symm)
      · exact Or.inr (Or.inr hx)

/-- A second anchor with an href that the scan has met already changes
nothing, wherever it stands. -/
theorem foldl_duplicate (parse : String → Option URL) (host : String) (st : ScanState)
    (pre mid post : List (Option String)) (href : String) :
    (pre ++ some href :: (mid ++ some href :: post)).foldl (linkInfo.each parse host) st =
      (pre ++ some href :: (mid ++ post)).foldl (linkInfo.each parse host) st := by
  have hseen : href ∈ ((pre ++ some href :: mid).foldl (linkInfo.each parse host) st).seenUrls := by
    rw [mem_foldl_seenUrls]
    exact Or.inr (by simp)
  have e1 : pre ++ some href :: (mid ++ some href :: post) =
      (pre ++ some href :: mid) ++ some href :: post := by simp
  have e2 : pre ++ some href :: (mid ++ post) = (pre ++ some href :: mid) ++ post := by simp
  have f1 : ∀ tail : List (Option String),
      ((pre ++ some href :: mid) ++ tail).foldl (linkInfo.each parse host) st =
        tail.foldl (linkInfo.each parse host)
          ((pre ++ some href :: mid).foldl (linkInfo.each parse host) st) :=
    fun tail => List.foldl_append _ _ _ _
  rw [e1, e2, f1, f1, List.foldl_cons, each_seen parse host _ href hseen]

/-- One step of the scan keeps the seen hrefs free of repetitions and keeps
`internalLinks + externalLinks` equal to the number of seen hrefs that are not
`Ignored`. -/
theorem each_counts (parse : String → Option URL) (host : String) (st : ScanState)
    (attr : Option String) (hnd : st.seenUrls.Nodup)
    (hcount : st.internalLinks + st.externalLinks =
      (st.seenUrls.filter fun h => decide (classify parse host h ≠ .Ignored)).length) :
    (linkInfo.each parse host st attr).seenUrls.Nodup ∧
      (linkInfo.each parse host st attr).internalLinks +
          (linkInfo.each parse host st attr).externalLinks =
        ((linkInfo.each parse host st attr).seenUrls.filter
          fun h => decide (classify parse host h ≠ .Ignored)).length := by
  cases attr with
  | none => exact ⟨hnd, hcount⟩
  | some href =>
    by_cases h : href ∈ st.seenUrls
    · rw [each_seen parse host st href h]
      exact ⟨hnd, hcount⟩
    · rw [each_unseen parse host st href h]
      have hnd2 : (href :: st.seenUrls).Nodup := List.nodup_cons.mpr ⟨h, hnd⟩
      cases hc : classify parse host href with
      | Internal =>
        refine ⟨hnd2, ?_⟩
        have hp : decide (classify parse host href ≠ .Ignored) = true := by rw [hc]; decide
        rw [List.filter_cons, if_pos hp, List.length_cons]
        dsimp only
        omega
      | External =>
        refine ⟨hnd2, ?_⟩
        have hp : decide (classify parse host href ≠ .Ignored) = true := by rw [hc]; decide
        rw [List.filter_cons, if_pos hp, List.length_cons]
        dsimp only
        omega
      | Ignored =>
        refine ⟨hnd2, ?_⟩
        have hp : ¬ decide (classify parse host href ≠ .Ignored) = true := by rw [hc]; decide
        rw [List.filter_cons, if_neg hp]
        exact hcount

theorem foldl_counts (parse : String → Option URL) (host : String)
    (anchors : List (Option String)) (st : ScanState) (hnd : st.seenUrls.Nodup)
    (hcount : st.internalLinks + st.externalLinks =
      (st.seenUrls.filter fun h => decide (classify parse host h ≠ .Ignored)).length) :
    (anchors.foldl (linkInfo.each parse host) st).seenUrls.Nodup ∧
      (anchors.foldl (linkInfo.each parse host) st).internalLinks +
          (anchors.foldl (linkInfo.each parse host) st).externalLinks =
        ((anchors.foldl (linkInfo.each parse host) st).seenUrls.filter
          fun h => decide (classify parse host h ≠ .Ignored)).length := by
  induction anchors generalizing st with
  | nil => exact ⟨hnd, hcount⟩
  | cons a rest ih =>
    rw [List.foldl_cons]
    exact ih _ (each_counts parse host st a hnd hcount).1 (each_counts parse host st a hnd hcount).2

/-- One step of the scan keeps `externalLinks` equal to the number of jobs
added to the pool. -/
theorem each_added (parse : String → Option URL) (host : String) (st : ScanState)
    (attr : Option String) (hadd : st.externalLinks = st.added.length) :
    (linkInfo.each parse host st attr).externalLinks =
      (linkInfo.each parse host st attr).added.length := by
  cases attr with
  | none => exact hadd
  | some href =>
    by_cases h : href ∈ st.seenUrls
    · rw [each_seen parse host st href h]
      exact hadd
    · rw [each_unseen parse host st href h]
      cases classify parse host href with
      | Internal => exact hadd
      | External => simp [hadd]
      | Ignored => exact hadd

theorem foldl_added (parse : String → Option URL) (host : String)
    (anchors : List (Option String)) (st : ScanState)
    (hadd : st.externalLinks = st.added.length) :
    (anchors.foldl (linkInfo.each parse host) st).externalLinks =
      (anchors.foldl (linkInfo.each parse host) st).added.length := by
  induction anchors generalizing st with
  | nil => exact hadd
  | cons a rest ih =>
    rw [List.foldl_cons]
    exact ih _ (each_added parse host st a hadd)

theorem scan_external_eq_added (parse : String → Option URL) (url : String)
    (anchors : List (Option String)) :
    (linkInfo.scan parse url anchors).externalLinks =
      (linkInfo.scan parse url anchors).added.length :=
  foldl_added parse _ anchors _ rfl

/-! ## Every sequence of anchors is the anchor sequence of a page -/

theorem matchAllList_anchorOf (anchors : List (Option String)) :
    Node.matchAllList "a" (anchors.map anchorOf) = anchors.map anchorOf := by
  induction anchors with
  | nil => rfl
  | cons a rest ih =>
    rw [List.map_cons, Node.matchAllList, ih]
    simp [anchorOf, element, Node.matchAll, Node.matchAllList]

theorem attr_anchorOf (attr : Option String) : (anchorOf attr).attr "href" = attr := by
  cases attr with
  | none => rfl
  | some href => simp [anchorOf, element, Node.attr, Node.Attr]

theorem find_docOfAnchors (anchors : List (Option String)) :
    (Find (docOfAnchors anchors) "a").map (fun n => n.attr "href") = anchors := by
  have h : Find (docOfAnchors anchors) "a" = anchors.map anchorOf := by
    have h0 : Find (docOfAnchors anchors) "a" =
        Node.matchAllList "a" (anchors.map anchorOf) ++ [] := by
      simp [Find, docOfAnchors, element, Node.children, Node.type, Node.matchAll,
        Node.matchAllList]
    rw [h0, List.append_nil, matchAllList_anchorOf]
  rw [h, List.map_map]
  conv_rhs => rw [← List.map_id anchors]
  exact List.map_congr_left fun a _ => attr_anchorOf a

/-- The method `linkInfo` on the page built from a sequence of anchors is the
scan-and-drain of that sequence. -/
theorem linkInfo_docOfAnchors (parse : String → Option URL)
    (WaitForJob : List String → List Job) (url : String) (anchors : List (Option String)) :
    analyser.linkInfo parse WaitForJob ⟨url, docOfAnchors anchors⟩ =
      linkInfoOfAnchors parse WaitForJob url anchors := by
  unfold analyser.linkInfo
  rw [find_docOfAnchors]

/-! ## The drain loop -/

/-- The drain loop adds to its counter the number of jobs whose `Result` is
the boolean false. -/
theorem drain_eq (jobs : List Job) (n : Nat) :
    linkInfo.drain jobs n = n + (jobs.filter fun j => j.Result = some false).length := by
  induction jobs generalizing n with
  | nil => simp [linkInfo.drain]
  | cons j rest ih =>
    rcases j with ⟨a, r⟩
    cases r with
    | none => simp [linkInfo.drain, ih]
    | some b =>
      cases b with
      | false => simp [linkInfo.drain, ih]; omega
      | true => simp [linkInfo.drain, ih]

theorem drain_le (jobs : List Job) : linkInfo.drain jobs 0 ≤ jobs.length := by
  rw [drain_eq, Nat.zero_add]
  exact List.length_filter_le _ _

/-! ## The scheme that `Parse` reports -/

/-- Whatever else `parse` finds, the scheme it reports is the one it was
given. -/
theorem parseRest_scheme (Scheme : String) (rest : List Char) (u : URL)
    (hu : Url.parseRest Scheme rest = some u) : u.Scheme = Scheme := by
  unfold Url.parseRest at hu
  split at hu
  · cases hu; rfl
  · split at hu
    · cases hu
    · split at hu
      · split at hu
        · cases hu; rfl
        · cases hu
      · rw [Option.map_eq_some'] at hu
        obtain ⟨_, _, rfl⟩ := hu
        rfl

/-- The scheme that `parse` reports is the lower-cased scheme that `getScheme`
split off. -/
theorem parseNoFragment_scheme (rawURL scheme rest : List Char) (u : URL)
    (hstar : rawURL ≠ ['*']) (hs : Url.getScheme rawURL = some (scheme, rest))
    (hu : Url.parseNoFragment rawURL = some u) :
    u.Scheme = ⟨scheme.map Url.toLower⟩ := by
  unfold Url.parseNoFragment at hu
  rw [hs] at hu
  split_ifs at hu
  exact parseRest_scheme _ _ u hu

/-- An href that starts with `mailto:` parses, when it parses at all, to a URL
whose scheme is `mailto`. -/
theorem Parse_mailto_scheme (href : String) (u : URL)
    (hmailto : HasPrefix href "mailto:" = true) (hu : Url.Parse href = some u) :
    u.Scheme = "mailto" := by
  obtain ⟨t, ht⟩ : ∃ t, href.data = 'm' :: 'a' :: 'i' :: 'l' :: 't' :: 'o' :: ':' :: t := by
    have hp : "mailto:".data <+: href.data := List.isPrefixOf_iff_prefix.mp hmailto
    obtain ⟨t, ht⟩ := hp
    exact ⟨t, ht.symm⟩
  unfold Url.Parse at hu
  rw [ht] at hu
  have hcut : (Url.cut '#' ('m' :: 'a' :: 'i' :: 'l' :: 't' :: 'o' :: ':' :: t)).1 =
      'm' :: 'a' :: 'i' :: 'l' :: 't' :: 'o' :: ':' :: (Url.cut '#' t).1 := by
    simp [Url.cut]
  have hscheme : Url.getScheme
      ('m' :: 'a' :: 'i' :: 'l' :: 't' :: 'o' :: ':' :: (Url.cut '#' t).1) =
        some ("mailto".data, (Url.cut '#' t).1) := by
    simp [Url.getScheme, Url.getSchemeLoop, Url.isAlpha, Url.isDigit]
  have hstar : 'm' :: 'a' :: 'i' :: 'l' :: 't' :: 'o' :: ':' :: (Url.cut '#' t).1 ≠ ['*'] := by
    simp
  dsimp only at hu
  rw [hcut] at hu
  cases hp : Url.parseNoFragment
      ('m' :: 'a' :: 'i' :: 'l' :: 't' :: 'o' :: ':' :: (Url.cut '#' t).1) with
  | none => rw [hp] at hu; cases hu
  | some v =>
    have hv := parseNoFragment_scheme _ _ _ v hstar hscheme hp
    rw [hp] at hu
    dsimp only at hu
    have huv : u = v := by
      split_ifs at hu
      · cases hu; rfl
      · rw [Option.map_eq_some'] at hu
        obtain ⟨_, _, h⟩ := hu
        exact h.symm
    rw [huv, hv]
    decide

/-! ## Classification where scheme and host are both present -/

/-- An http or https href with a non-empty host is `Internal` when the host is
the page host and `External` otherwise. -/
theorem classify_http_with_host (parse : String → Option URL) (host href : String) (u : URL)
    (hu : parse href = some u) (hscheme : u.Scheme = "http" ∨ u.Scheme = "https")
    (hhost : u.Host ≠ "") :
    classify parse host href = if host = u.Host then .Internal else .External := by
  have h1 : ¬ (u.Scheme = "" ∨ u.Host = "") := by
    rintro (h | h)
    · rcases hscheme with h2 | h2 <;> rw [h] at h2 <;> exact absurd h2 (by decide)
    · exact hhost h
  simp only [classify, hu, if_neg h1, if_pos hscheme]

/-- An href with a non-empty scheme other than http and https and a non-empty
host is `Ignored`. -/
theorem classify_other_scheme_with_host (parse : String → Option URL) (host href : String)
    (u : URL) (hu : parse href = some u) (hscheme : u.Scheme ≠ "") (hhost : u.Host ≠ "")
    (hhttp : u.Scheme ≠ "http") (hhttps : u.Scheme ≠ "https") :
    classify parse host href = .Ignored := by
  have h1 : ¬ (u.Scheme = "" ∨ u.Host = "") := by
    rintro (h | h)
    · exact hscheme h
    · exact hhost h
  have h2 : ¬ (u.Scheme = "http" ∨ u.Scheme = "https") := by
    rintro (h | h)
    · exact hhttp h
    · exact hhttps h
  simp only [classify, hu, if_neg h1, if_neg h2]

/-! ## The claims -/

/-- C1, at the failing input: on the page `http://example.com`, whose host is
`example.com`, the href `http:other.com/x` parses with scheme `http` and an
empty host, which differs from the page host; the scan counts it in
`internalLinks`, leaves `externalLinks` at zero and adds no job to the pool. -/
theorem linkInfo_http_empty_host_internal :
    Url.Parse "http:other.com/x" = some ⟨"http", ""⟩ ∧
      linkInfo.host Url.Parse "http://example.com" = "example.com" ∧
      linkInfo.scan Url.Parse "http://example.com" [some "http:other.com/x"] =
        ⟨["http:other.com/x"], 1, 0, []⟩ := by
  decide

/-- C2, at the failing inputs: on the page `http://example.com` the href
`tel:123` (scheme `tel`, empty host) and the href `//other.com/x` (empty
scheme, host `other.com`) are neither relative nor http references, and the
scan counts each of them in `internalLinks`. -/
theorem linkInfo_non_http_counted_internal :
    Url.Parse "tel:123" = some ⟨"tel", ""⟩ ∧
      linkInfo.scan Url.Parse "http://example.com" [some "tel:123"] =
        ⟨["tel:123"], 1, 0, []⟩ ∧
      Url.Parse "//other.com/x" = some ⟨"", "other.com"⟩ ∧
      linkInfo.scan Url.Parse "http://example.com" [some "//other.com/x"] =
        ⟨["//other.com/x"], 1, 0, []⟩ := by
  decide

/-- C3: an href that starts with `mailto:` is ignored whatever `url.Parse`
makes of it: the closure of `linkInfo` leaves `internalLinks` and
`externalLinks` as they were and adds no job to the pool. -/
theorem linkInfo_mailto_ignored (url : String) (st : ScanState) (href : String)
    (hmailto : HasPrefix href "mailto:" = true) :
    classify Url.Parse (linkInfo.host Url.Parse url) href = .Ignored ∧
      (linkInfo.each Url.Parse (linkInfo.host Url.Parse url) st (some href)).internalLinks =
        st.internalLinks ∧
      (linkInfo.each Url.Parse (linkInfo.host Url.Parse url) st (some href)).externalLinks =
        st.externalLinks ∧
      (linkInfo.each Url.Parse (linkInfo.host Url.Parse url) st (some href)).added =
        st.added := by
  have hclass : classify Url.Parse (linkInfo.host Url.Parse url) href = .Ignored := by
    unfold classify
    cases hp : Url.Parse href with
    | none => rfl
    | some u =>
      have hs : u.Scheme = "mailto" := Parse_mailto_scheme href u hmailto hp
      dsimp only
      by_cases h1 : u.Scheme = "" ∨ u.Host = ""
      · rw [if_pos h1, hmailto]
        rfl
      · have h2 : ¬ (u.Scheme = "http" ∨ u.Scheme = "https") := by
          rw [hs]
          decide
        rw [if_neg h1, if_neg h2]
  refine ⟨hclass, ?_⟩
  by_cases hseen : href ∈ st.seenUrls
  · rw [each_seen _ _ st href hseen]
    exact ⟨rfl, rfl, rfl⟩
  · rw [each_unseen _ _ st href hseen, hclass]
    exact ⟨rfl, rfl, rfl⟩

/-- Witness of C3, on the href `mailto:a@b.com` met on the page
`http://example.com` at the start of the scan. -/
theorem linkInfo_mailto_ignored_witness :
    HasPrefix "mailto:a@b.com" "mailto:" = true ∧
      classify Url.Parse (linkInfo.host Url.Parse "http://example.com") "mailto:a@b.com" =
        .Ignored :=
  ⟨by decide,
    (linkInfo_mailto_ignored "http://example.com" ⟨[], 0, 0, []⟩ "mailto:a@b.com"
      (by decide)).1⟩

/-- What `internal + external` counts on the code: the distinct raw href
strings, among the anchors that carry an href, for which the closure takes an
incrementing branch (`classify`); anchors without href and repeated hrefs add
nothing. -/
theorem scan_counts_branches (parse : String → Option URL)
    (WaitForJob : List String → List Job) (url : String) (anchors : List (Option String)) :
    (linkInfoOfAnchors parse WaitForJob url anchors).internal +
        (linkInfoOfAnchors parse WaitForJob url anchors).external =
      (anchors.reduceOption.dedup.filter fun href =>
        decide (classify parse (linkInfo.host parse url) href ≠ .Ignored)).length := by
  have hinv : (linkInfo.scan parse url anchors).seenUrls.Nodup ∧
      (linkInfo.scan parse url anchors).internalLinks +
          (linkInfo.scan parse url anchors).externalLinks =
        ((linkInfo.scan parse url anchors).seenUrls.filter fun h =>
          decide (classify parse (linkInfo.host parse url) h ≠ .Ignored)).length :=
    foldl_counts parse (linkInfo.host parse url) anchors ⟨[], 0, 0, []⟩ List.nodup_nil rfl
  have hperm : (linkInfo.scan parse url anchors).seenUrls.Perm anchors.reduceOption.dedup := by
    refine (List.perm_ext_iff_of_nodup hinv.1 (List.nodup_dedup _)).mpr ?_
    intro x
    rw [linkInfo.scan, mem_foldl_seenUrls, List.mem_dedup, List.reduceOption_mem_iff]
    simp
  show (linkInfo.scan parse url anchors).internalLinks +
      (linkInfo.scan parse url anchors).externalLinks = _
  rw [← (hperm.filter _).length_eq]
  exact hinv.2

/-- Where the branch that the closure takes is the class of the specification
for every href of the page, `internal + external` is the number of distinct
raw href strings that the specification classifies as `Internal` or
`External`. -/
theorem scan_counts_spec_of_agree (parse : String → Option URL)
    (WaitForJob : List String → List Job) (url : String) (anchors : List (Option String))
    (hagree : ∀ href, some href ∈ anchors →
      specClassify parse (linkInfo.host parse url) href =
        classify parse (linkInfo.host parse url) href) :
    (linkInfoOfAnchors parse WaitForJob url anchors).internal +
        (linkInfoOfAnchors parse WaitForJob url anchors).external =
      (anchors.reduceOption.dedup.filter fun href =>
        decide (specClassify parse (linkInfo.host parse url) href ≠ .Ignored)).length := by
  rw [scan_counts_branches parse WaitForJob url anchors]
  congr 1
  apply List.filter_congr
  intro href hmem
  rw [List.mem_dedup, List.reduceOption_mem_iff] at hmem
  rw [hagree href hmem]

/-- The branch that the closure takes is the class of the specification for
every href that parses with scheme and host both empty or both non-empty and
does not start with `mailto:`. -/
theorem specClassify_eq_classify (parse : String → Option URL) (host href : String) (u : URL)
    (hu : parse href = some u) (hmailto : HasPrefix href "mailto:" = false)
    (hboth : u.Scheme = "" ↔ u.Host = "") :
    specClassify parse host href = classify parse host href := by
  simp only [specClassify, classify, hu, hmailto]
  by_cases hs : u.Scheme = ""
  · have hh : u.Host = "" := hboth.mp hs
    simp [hs, hh]
  · have hh : ¬ u.Host = "" := fun h => hs (hboth.mpr h)
    simp [hs, hh]

/-- C4, at the failing input: on the page `http://example.com` with the one
anchor `tel:123`, which the specification classifies as `Ignored`, the number
of distinct hrefs classified as `Internal` or `External` is 0, and the result
of `linkInfo` has `internal + external = 1`. -/
theorem linkInfo_counts_ignored_tel :
    Url.Parse "tel:123" = some ⟨"tel", ""⟩ ∧
      specClassify Url.Parse (linkInfo.host Url.Parse "http://example.com") "tel:123" =
        .Ignored ∧
      ([some "tel:123"].reduceOption.dedup.filter fun href =>
        decide (specClassify Url.Parse (linkInfo.host Url.Parse "http://example.com") href ≠
          .Ignored)).length = 0 ∧
      (linkInfoOfAnchors Url.Parse allFailed "http://example.com" [some "tel:123"]).internal +
        (linkInfoOfAnchors Url.Parse allFailed "http://example.com" [some "tel:123"]).external =
          1 := by
  refine ⟨by decide, by decide, ?_, by decide⟩
  have hd : [some "tel:123"].reduceOption.dedup = ["tel:123"] := by
    simp [List.reduceOption]
  rw [hd]
  decide

/-- C5: when the jobs that the pool hands back are, without repetition, among
the jobs that were added to it, whatever their results (true, false or nil),
the result of `linkInfo` has `inaccesible ≤ external`. -/
theorem linkInfo_inaccesible_le_external (parse : String → Option URL)
    (WaitForJob : List String → List Job) (url : String) (anchors : List (Option String))
    (hpool : ((WaitForJob (linkInfo.scan parse url anchors).added).map Job.Args).Subperm
      (linkInfo.scan parse url anchors).added) :
    (linkInfoOfAnchors parse WaitForJob url anchors).inaccesible ≤
      (linkInfoOfAnchors parse WaitForJob url anchors).external := by
  show linkInfo.drain (WaitForJob (linkInfo.scan parse url anchors).added) 0 ≤
    (linkInfo.scan parse url anchors).externalLinks
  rw [scan_external_eq_added]
  calc linkInfo.drain (WaitForJob (linkInfo.scan parse url anchors).added) 0
      ≤ (WaitForJob (linkInfo.scan parse url anchors).added).length := drain_le _
    _ = ((WaitForJob (linkInfo.scan parse url anchors).added).map Job.Args).length :=
        (List.length_map _ _).symm
    _ ≤ (linkInfo.scan parse url anchors).added.length := hpool.length_le

/-- Witness of C5, on the page `http://example.com` with two external anchors,
of which the pool hands one job back, with a false result. -/
theorem linkInfo_inaccesible_le_external_witness :
    ((firstJobFalse (linkInfo.scan Url.Parse "http://example.com" twoExternalAnchors).added).map
        Job.Args).Subperm (linkInfo.scan Url.Parse "http://example.com" twoExternalAnchors).added ∧
      (linkInfoOfAnchors Url.Parse firstJobFalse "http://example.com"
          twoExternalAnchors).inaccesible ≤
        (linkInfoOfAnchors Url.Parse firstJobFalse "http://example.com"
          twoExternalAnchors).external :=
  have hscan : linkInfo.scan Url.Parse "http://example.com" twoExternalAnchors =
      ⟨["http://third.org/", "http://other.com/x"], 0, 2,
        ["http://other.com/x", "http://third.org/"]⟩ := by decide
  have hpool : ((firstJobFalse
      (linkInfo.scan Url.Parse "http://example.com" twoExternalAnchors).added).map
        Job.Args).Subperm (linkInfo.scan Url.Parse "http://example.com" twoExternalAnchors).added := by
    rw [hscan]
    exact (List.sublist_append_left ["http://other.com/x"] ["http://third.org/"]).subperm
  ⟨hpool, linkInfo_inaccesible_le_external Url.Parse firstJobFalse "http://example.com"
    twoExternalAnchors hpool⟩

/-- C6: a further anchor with the raw href string of an earlier anchor, put
anywhere after it, changes neither the jobs added to the pool nor any of the
three counters of the result of `linkInfo`. -/
theorem linkInfo_duplicate_href (parse : String → Option URL)
    (WaitForJob : List String → List Job) (url : String)
    (pre mid post : List (Option String)) (href : String) :
    (linkInfo.scan parse url (pre ++ some href :: (mid ++ some href :: post))).added =
        (linkInfo.scan parse url (pre ++ some href :: (mid ++ post))).added ∧
      linkInfoOfAnchors parse WaitForJob url (pre ++ some href :: (mid ++ some href :: post)) =
        linkInfoOfAnchors parse WaitForJob url (pre ++ some href :: (mid ++ post)) := by
  have h : linkInfo.scan parse url (pre ++ some href :: (mid ++ some href :: post)) =
      linkInfo.scan parse url (pre ++ some href :: (mid ++ post)) :=
    foldl_duplicate parse _ _ pre mid post href
  unfold linkInfoOfAnchors
  rw [h]
  exact ⟨rfl, rfl⟩

/-- C7: when the HTTP client keeps its contract (a nil error comes with a
response), `accessible` returns the boolean true exactly when the HEAD request
completes without error and with a status code below 400; it returns the
boolean false when the request completes with a status of 400 or more and when
the request fails, a timeout included; its result is always a boolean. -/
theorem accessible_iff (makeRequest : String → String → Nat → RequestResult) (url : String)
    (hclient : (makeRequest "HEAD" url headTimeout).err = none →
      (makeRequest "HEAD" url headTimeout).resp ≠ none) :
    (accessible makeRequest url = some true ↔
        (makeRequest "HEAD" url headTimeout).err = none ∧
          ∃ resp, (makeRequest "HEAD" url headTimeout).resp = some resp ∧
            resp.StatusCode < 400) ∧
      (∀ resp, (makeRequest "HEAD" url headTimeout).err = none →
        (makeRequest "HEAD" url headTimeout).resp = some resp → 400 ≤ resp.StatusCode →
          accessible makeRequest url = some false) ∧
      ((makeRequest "HEAD" url headTimeout).err ≠ none →
        accessible makeRequest url = some false) ∧
      ∃ b, accessible makeRequest url = some b := by
  unfold accessible
  rcases hr : makeRequest "HEAD" url headTimeout with ⟨resp, err⟩
  rw [hr] at hclient
  cases err with
  | some e => simp
  | none =>
    cases resp with
    | none => exact absurd rfl (hclient rfl)
    | some r =>
      by_cases hs : r.StatusCode ≥ 400
      · have hlt : ¬ r.StatusCode < 400 := by omega
        simp [hs, hlt]
      · have hlt : r.StatusCode < 400 := by omega
        simp [hs, hlt]

/-- Witness of C7, on the network where `http://other.com/x` cannot be reached:
the probe of that URL is the boolean false. -/
theorem accessible_iff_witness :
    ((otherDown "HEAD" "http://other.com/x" headTimeout).err = none →
        (otherDown "HEAD" "http://other.com/x" headTimeout).resp ≠ none) ∧
      accessible otherDown "http://other.com/x" = some false :=
  have hclient : (otherDown "HEAD" "http://other.com/x" headTimeout).err = none →
      (otherDown "HEAD" "http://other.com/x" headTimeout).resp ≠ none := by decide
  ⟨hclient, (accessible_iff otherDown "http://other.com/x" hclient).2.2.1 (by decide)⟩

/-- C8, as stated, fails: on the page `http://example.com` with the one anchor
`http://other.com/x`, when the job of that reference comes back with a nil
`Result`, the result of `linkInfo` still has `external = 1`, whereas the page
without the anchor has `external = 0`. -/
theorem linkInfo_failed_job_counted_external :
    Url.Parse "http://other.com/x" = some ⟨"http", "other.com"⟩ ∧
      allFailed (linkInfo.scan Url.Parse "http://example.com" [some "http://other.com/x"]).added =
        [⟨"http://other.com/x", none⟩] ∧
      linkInfoOfAnchors Url.Parse allFailed "http://example.com" [some "http://other.com/x"] =
        ⟨0, 1, 0⟩ ∧
      linkInfoOfAnchors Url.Parse allFailed "http://example.com" [] = ⟨0, 0, 0⟩ := by
  decide

/-- C8, amended: a job that comes back with a nil `Result` adds nothing to
`inaccesible` and nothing to `internal` (the result is the same as if the pool
had not handed the job back), while `external`, incremented during the scan
before the probe is submitted, counts every added job, the failed one
included. -/
theorem linkInfo_failed_job (parse : String → Option URL) (url : String)
    (anchors : List (Option String)) (before after : List Job) (href : String) :
    (linkInfoOfAnchors parse (fun _ => before ++ ⟨href, none⟩ :: after) url anchors).inaccesible =
        (linkInfoOfAnchors parse (fun _ => before ++ after) url anchors).inaccesible ∧
      (linkInfoOfAnchors parse (fun _ => before ++ ⟨href, none⟩ :: after) url anchors).internal =
        (linkInfoOfAnchors parse (fun _ => before ++ after) url anchors).internal ∧
      (linkInfoOfAnchors parse (fun _ => before ++ ⟨href, none⟩ :: after) url anchors).external =
        (linkInfo.scan parse url anchors).added.length := by
  refine ⟨?_, rfl, scan_external_eq_added parse url anchors⟩
  show linkInfo.drain (before ++ ⟨href, none⟩ :: after) 0 = linkInfo.drain (before ++ after) 0
  rw [drain_eq, drain_eq]
  simp [List.filter_cons]

/-- C9: for the page `http://example.com` with the anchors `/about`,
`http://example.com/contact`, `http://other.com/x`, `mailto:a@b.com` and
`/about` again, in document order, where the probe of `http://other.com/x`
returns false, `linkInfo` returns internal = 2, external = 1, inaccesible = 1,
and the one job added to the pool is the probe of `http://other.com/x`. -/
theorem linkInfo_scenario :
    (Find scenarioDoc "a").map (fun n => n.attr "href") =
        [some "/about", some "http://example.com/contact", some "http://other.com/x",
          some "mailto:a@b.com", some "/about"] ∧
      accessible otherDown "http://other.com/x" = some false ∧
      analyser.linkInfo Url.Parse (runAll otherDown) ⟨"http://example.com", scenarioDoc⟩ =
        ⟨2, 1, 1⟩ ∧
      (linkInfo.scan Url.Parse "http://example.com"
          ((Find scenarioDoc "a").map fun n => n.attr "href")).added =
        ["http://other.com/x"] := by
  decide

/-- C10, as stated, fails: for the page with a `title` in its head (text
`Home`) and a second `title` inside an inline SVG (text `Logo`), `title` returns
`HomeLogo`, not the text `Home` of the first `title` element. -/
theorem title_two_titles :
    ((Find twoTitlesDoc "title").head?.map Node.text) = some "Home" ∧
      analyser.title ⟨"http://example.com", twoTitlesDoc⟩ = "HomeLogo" ∧
      analyser.title ⟨"http://example.com", twoTitlesDoc⟩ ≠ "Home" := by
  decide

/-- The text of a sibling chain is the concatenation of the texts of its
nodes, in order. -/
theorem textList_eq_foldr (nodes : List Node) :
    Node.textList nodes = (nodes.map Node.text).foldr (· ++ ·) "" := by
  induction nodes with
  | nil => rfl
  | cons n rest ih => rw [Node.textList, ih, List.map_cons, List.foldr_cons]

/-- C10, amended: `title` returns the concatenation, in document order, of the
text contents of all the `title` elements of the document: the empty string
when there is none, and otherwise the text of the first one followed by the
texts of the later ones. -/
theorem title_eq_concat (an : analyser) :
    an.title = ((Find an.doc "title").map Node.text).foldr (· ++ ·) "" ∧
      match Find an.doc "title" with
      | [] => an.title = ""
      | first :: later => an.title = first.text ++ Selection.Text later := by
  refine ⟨textList_eq_foldr _, ?_⟩
  unfold analyser.title
  cases Find an.doc "title" with
  | nil => rfl
  | cons first later => rfl

end Webanalyse
